import Mathlib

/-!
Verification of the `epregistry` entry-point registry
(`src/epregistry/epregistry.py`).

The Python data is a process-wide nested dictionary
`_entry_point_cache : dict[str, dict[str, EntryPoint]]` mapping a group
name to a mapping from entry-point name to entry point.  Python
dictionaries are insertion-ordered with unique keys; we embed them as
association lists (`List (String × _)`) together with the operations the
source uses: ordered lookup (`dictGet`), the `d[k] = v` assignment
(`dictInsert`, which updates in place when the key is present and appends
otherwise), `keys()` and `values()`.  Uniqueness of keys — automatic for a
real Python dict — is the explicit well-formedness predicate `CacheWF`.

External inputs (the host interpreter's `importlib.metadata.entry_points()`
enumeration, the `EntryPoint.load()` import machinery, `fnmatch` glob
matching, filesystem path resolution) are embedded as explicit parameters
or as executable Lean models noted at their definitions.
-/

/-- Owning distribution of an entry point, as the source reads it:
`ep.dist.metadata["Name"]` is `name`, `ep.dist.version` is `version`. -/
structure Distribution where
  name : String
  version : String
deriving DecidableEq, Repr

/-- `importlib.metadata.EntryPoint` as consumed by the source: the fields
`name`, `group`, `module`, `attr` and the optional owning distribution
`dist`.  (In CPython `module`/`attr` are derived from `value`; the source
only ever reads them, so they are plain fields here.) -/
structure EntryPoint where
  name : String
  group : String
  module : String
  attr : String
  dist : Option Distribution
deriving DecidableEq, Repr

/-- A group's slice of the cache: entry-point name to entry point. -/
abbrev Slice := List (String × EntryPoint)

/-- The global cache: group name to slice. -/
abbrev Cache := List (String × Slice)

/-- Ordered dictionary lookup, first (and for a well-formed dict, only)
binding of the key. -/
def dictGet {α : Type} : List (String × α) → String → Option α
  | [], _ => none
  | (k', v) :: rest, k => if k' = k then some v else dictGet rest k

/-- Python `d[k] = v`: replace the binding in place when `k` is a key
(keeping its position), append at the end otherwise. -/
def dictInsert {α : Type} : List (String × α) → String → α → List (String × α)
  | [], k, v => [(k, v)]
  | (k', v') :: rest, k, v =>
      if k' = k then (k, v) :: rest else (k', v') :: dictInsert rest k v

/-- Python `d.keys()` in order. -/
def dictKeys {α : Type} : List (String × α) → List String
  | [] => []
  | (k, _) :: rest => k :: dictKeys rest

/-- Python `d.values()` in order. -/
def dictValues {α : Type} : List (String × α) → List α
  | [] => []
  | (_, v) :: rest => v :: dictValues rest

/-- Two-level lookup in the nested cache: group then entry-point name. -/
def dictGet2 (c : Cache) (g n : String) : Option EntryPoint :=
  match dictGet c g with
  | none => none
  | some s => dictGet s n

/-- Python dict invariant carried by every real cache value: keys are
unique at the group level and inside every slice. -/
def CacheWF (c : Cache) : Prop :=
  (dictKeys c).Nodup ∧ ∀ p ∈ c, (dictKeys p.2).Nodup

instance (c : Cache) : Decidable (CacheWF c) :=
  inferInstanceAs (Decidable (_ ∧ _))

/-- Python `x in l` over a list of values (`==`-based membership). -/
def listHas {α : Type} [DecidableEq α] : List α → α → Bool
  | [], _ => false
  | y :: rest, x => if y = x then true else listHas rest x

/-- One iteration of the loop of `_initialize_cache`:
`all_entry_points[ep.group][ep.name] = ep` on a `defaultdict(dict)` — a
missing group is appended with an empty slice, then the name binding is
assigned, overwriting in place an earlier binding of the same
(group, name). -/
def cacheStep (c : Cache) (ep : EntryPoint) : Cache :=
  dictInsert c ep.group (dictInsert ((dictGet c ep.group).getD []) ep.name ep)

/-- `_initialize_cache`: bucket the host enumeration (`entry_points()`,
in enumeration order) by group then name. -/
def initializeCache (env : List EntryPoint) : Cache :=
  env.foldl cacheStep []

/-- Result of one call of the memoised initializer (`@cache` on
`_initialize_cache`): the returned mapping, the memo cell afterwards, and
how many times the host environment was enumerated during the call. -/
structure InitResult where
  value : Cache
  memo : Option Cache
  scans : Nat
deriving DecidableEq, Repr

/-- One invocation of the `@cache`-memoised `_initialize_cache`: a hit
returns the stored mapping without touching the environment; a miss
enumerates the environment once and stores the result. -/
def runInit (env : List EntryPoint) : Option Cache → InitResult
  | some c => ⟨c, some c, 0⟩
  | none =>
      let c := initializeCache env
      ⟨c, some c, 1⟩

/-- `EntryPointRegistry._get_cache`: return the global `_entry_point_cache`,
populating it from the initializer first when it is still `None`.  The
pair is (returned mapping, global afterwards). -/
def getCacheOp (env : List EntryPoint) : Option Cache → Cache × Option Cache
  | some c => (c, some c)
  | none =>
      let c := initializeCache env
      (c, some c)

namespace EntryPointRegistry

/-- `EntryPointRegistry.get`: `self.cache.get(name)`. -/
def get (slice : Slice) (n : String) : Option EntryPoint :=
  dictGet slice n

/-- `EntryPointRegistry.load`: `entry_point.load() if entry_point is not
None else None`.  The import machinery behind `EntryPoint.load()` is
external and is passed in as `loader`. -/
def load {α : Type} (loader : EntryPoint → α) (slice : Slice) (n : String) :
    Option α :=
  match get slice n with
  | some ep => some (loader ep)
  | none => none

end EntryPointRegistry

/-- The two Python exception classes the source raises on a failed strict
lookup, with the data their f-string messages embed (`__getitem__` raises
`KeyError(f"No entry point named {name!r} found in group {group!r}")`,
`get_metadata` raises `ValueError` with the analogous message).  Both
payloads identify the missing name and the group; the constructors keep
the classes distinct, as they are in Python. -/
inductive PyError where
  | keyError (name group : String)
  | valueError (name group : String)
deriving DecidableEq, Repr

deriving instance DecidableEq for Except

/-- The record `get_metadata` returns: `module`, `attr`, owning
distribution name and version (the latter two `None` when `ep.dist` is
`None`). -/
structure Metadata where
  module : String
  attr : String
  dist : Option String
  version : Option String
deriving DecidableEq, Repr

/-- The argument of `__contains__`, which accepts a name string or an
`EntryPoint` value. -/
inductive ContainsArg where
  | name (s : String)
  | entry (e : EntryPoint)
deriving DecidableEq, Repr

/-- Outcome of `get_extension_point_dir`: either an `assert` failed
(a fatal `AssertionError`, not one of the `PyError` lookup errors) or a
directory path is returned. -/
inductive DirResult where
  | assertFailed (cond : String)
  | dir (path : String)
deriving DecidableEq, Repr

namespace EntryPointRegistry

/-- `EntryPointRegistry.__getitem__`: `self.cache[name]`, re-raised on a
miss as `KeyError` carrying the name and the registry's group. -/
def getItem (slice : Slice) (group n : String) : Except PyError EntryPoint :=
  match dictGet slice n with
  | some ep => Except.ok ep
  | none => Except.error (PyError.keyError n group)

/-- `EntryPointRegistry.__iter__`: `iter(self.cache.values())` — the
stored `EntryPoint` values in insertion order (the docstring of the
Python method claims names; the code yields values). -/
def iterate (slice : Slice) : List EntryPoint :=
  dictValues slice

/-- `EntryPointRegistry.__len__`: `len(self.cache)`. -/
def size (slice : Slice) : Nat :=
  slice.length

/-- `EntryPointRegistry.__contains__`: a string is looked up among the
keys (`ep in self.cache`), an `EntryPoint` among the stored values
(`ep in self.cache.values()`). -/
def contains (slice : Slice) : ContainsArg → Bool
  | ContainsArg.name s => listHas (dictKeys slice) s
  | ContainsArg.entry e => listHas (dictValues slice) e

/-- `EntryPointRegistry.names`: `list(self.cache.keys())`. -/
def names (slice : Slice) : List String :=
  dictKeys slice

/-- `EntryPointRegistry.get_all`: returns the cache slice itself. -/
def get_all (slice : Slice) : Slice :=
  slice

/-- `EntryPointRegistry.get_metadata`: `ValueError` when the name misses
(`if not ep` — entry points are plain objects, always truthy, so the test
is exactly presence), otherwise the metadata record. -/
def get_metadata (slice : Slice) (group n : String) : Except PyError Metadata :=
  match get slice n with
  | none => Except.error (PyError.valueError n group)
  | some ep =>
      Except.ok
        { module := ep.module
          attr := ep.attr
          dist := Option.map Distribution.name ep.dist
          version := Option.map Distribution.version ep.dist }

/-- `EntryPointRegistry.get_extension_point_dir`: load the entry point,
`assert ep` (loaded plugin objects — modules, classes, callables — are
truthy, so this checks presence), `assert hasattr(ep, "__file__")`
(modelled by `file?`), then `pathlib.Path(ep.__file__).resolve().parent`
(the filesystem resolution is external and passed as `resolveParent`). -/
def get_extension_point_dir {α : Type} (loader : EntryPoint → α)
    (file? : α → Option String) (resolveParent : String → String)
    (slice : Slice) (n : String) : DirResult :=
  match load loader slice n with
  | none => DirResult.assertFailed "ep"
  | some obj =>
      match file? obj with
      | none => DirResult.assertFailed "hasattr(ep, __file__)"
      | some f => DirResult.dir (resolveParent f)

end EntryPointRegistry

/-- `available_groups`: `list(EntryPointRegistry._get_cache().keys())`. -/
def available_groups (c : Cache) : List String :=
  dictKeys c

/-- Python `str.lower()` on one character, modelled for the ASCII range
(the range exercised by entry-point names, group names and distribution
names). -/
def charLower (c : Char) : Char :=
  if 'A' ≤ c ∧ c ≤ 'Z' then Char.ofNat (c.toNat + 32) else c

/-- Python `str.lower()`. -/
def strLower (s : String) : String :=
  ⟨s.data.map charLower⟩

/-- Glob matching for the wildcard language the source feeds to
`fnmatch.fnmatch` (`*` and `?`; every other character is literal — the
behaviour of `fnmatch` on patterns without bracket classes).  `globStar`
matches `*` followed by a pattern whose matcher is `m` against a text by
trying every suffix. -/
def globStar (m : List Char → Bool) : List Char → Bool
  | [] => m []
  | c :: ts => m (c :: ts) || globStar m ts

/-- `globMatch pattern text`: does the glob `pattern` match all of
`text`? -/
def globMatch : List Char → List Char → Bool
  | [], text => text.isEmpty
  | '*' :: ps, text => globStar (globMatch ps) text
  | '?' :: ps, text =>
      match text with
      | [] => false
      | _ :: ts => globMatch ps ts
  | p :: ps, text =>
      match text with
      | [] => false
      | c :: ts => (p = c) && globMatch ps ts

/-- `match_pattern` inside `filter_entry_points`:
`fnmatch.fnmatch(text.lower(), pattern.lower())`. -/
def matchPattern (text pattern : String) : Bool :=
  globMatch (strLower pattern).data (strLower text).data

/-- The group filter of `filter_entry_points`:
`if group and not match_pattern(group_name, group): continue`.
A `None` or empty-string argument is falsy in Python, so it passes every
group. -/
def groupPass (gOpt : Option String) (gName : String) : Bool :=
  match gOpt with
  | none => true
  | some p => if p = "" then true else matchPattern gName p

/-- The distribution filter: `if distribution and not (ep.dist and
match_pattern(ep.dist.metadata["Name"], distribution)): continue`.  With
a truthy filter, an entry without a distribution is excluded. -/
def distPass (dOpt : Option String) (ep : EntryPoint) : Bool :=
  match dOpt with
  | none => true
  | some p =>
      if p = "" then true
      else
        match ep.dist with
        | some d => matchPattern d.name p
        | none => false

/-- The name filter: `if name_pattern and not match_pattern(ep_name,
name_pattern): continue`. -/
def namePass (nOpt : Option String) (epName : String) : Bool :=
  match nOpt with
  | none => true
  | some p => if p = "" then true else matchPattern epName p

/-- The inner loop of `filter_entry_points` over one group's entries. -/
def filterGroupSlice (dOpt nOpt : Option String) (eps : Slice) : Slice :=
  eps.filter fun q => distPass dOpt q.2 && namePass nOpt q.1

/-- `filter_entry_points(group, distribution, name_pattern)`: keep the
groups passing the group filter, inside each the entries passing the
distribution and name filters, and drop groups whose filtered slice is
empty (`if filtered_eps: result[group_name] = filtered_eps`). -/
def filterEntryPoints (cache : Cache) (gOpt dOpt nOpt : Option String) :
    Cache :=
  cache.filterMap fun p =>
    if groupPass gOpt p.1 then
      let fe := filterGroupSlice dOpt nOpt p.2
      if fe.isEmpty then none else some (p.1, fe)
    else none

/-- Python substring test `needle in hay` over character lists. -/
def listContains : List Char → List Char → Bool
  | [], needle => needle.isEmpty
  | c :: hs, needle => needle.isPrefixOf (c :: hs) || listContains hs needle

/-- Python `needle in hay` on strings. -/
def strContains (hay needle : String) : Bool :=
  listContains hay.data needle.data

/-- The per-entry test of `search_entry_points` (`q` is the already
lowercased query): name match when `include_names`, distribution match
when `include_distributions` and the entry has a distribution. -/
def epMatches (q : String) (inNames inDists : Bool) (epName : String)
    (ep : EntryPoint) : Bool :=
  (inNames && strContains (strLower epName) q) ||
    (inDists &&
      match ep.dist with
      | some d => strContains (strLower d.name) q
      | none => false)

/-- One group's pass of the `search_entry_points` loop: keep an entry
when it matches on its own or the group name matches
(`if matches or group_matches`). -/
def searchSlice (q : String) (inGroups inNames inDists : Bool)
    (gName : String) (eps : Slice) : Slice :=
  eps.filter fun r =>
    epMatches q inNames inDists r.1 r.2 || (inGroups && strContains (strLower gName) q)

/-- `search_entry_points(query, include_groups, include_names,
include_distributions)`: lowercase the query once; per group compute
`group_matches`; keep an entry when it matches on its own or the group
matches; drop groups with no matching entries. -/
def searchEntryPoints (cache : Cache) (query : String)
    (inGroups inNames inDists : Bool) : Cache :=
  let q := strLower query
  cache.filterMap fun p =>
    let matching := searchSlice q inGroups inNames inDists
      p.1 p.2
    if matching.isEmpty then none else some (p.1, matching)

/-- The public operations of C1, each standing for one call against the
module: registry construction for a group, the registry's read methods,
and the module-level functions. -/
inductive Op where
  | regInit (group : String)
  | regGet (group n : String)
  | regGetItem (group n : String)
  | regLoad (group n : String)
  | regNames (group : String)
  | regIter (group : String)
  | regLen (group : String)
  | regContains (group : String) (x : ContainsArg)
  | regGetAll (group : String)
  | regGetMetadata (group n : String)
  | availableGroupsOp
  | filterOp (g d n : Option String)
  | searchOp (q : String) (a b c : Bool)
  | listDistributionsOp
deriving DecidableEq, Repr

/-- The effect of one public operation on the global cache variable.
Every read method reaches the cache only through
`EntryPointRegistry._get_cache` (directly or via the `cache` property)
and computes its result from the returned mapping; `__init__`
additionally executes `if self.group not in self._get_cache():
self._get_cache()[self.group] = {}`, assigning an empty slice under the
group key when it is absent. -/
def runOp (env : List EntryPoint) (op : Op) (st : Option Cache) :
    Option Cache :=
  match op with
  | Op.regInit group =>
      let r := getCacheOp env st
      if (dictGet r.1 group).isSome then r.2
      else some (dictInsert r.1 group [])
  | Op.regGet _ _ => (getCacheOp env st).2
  | Op.regGetItem _ _ => (getCacheOp env st).2
  | Op.regLoad _ _ => (getCacheOp env st).2
  | Op.regNames _ => (getCacheOp env st).2
  | Op.regIter _ => (getCacheOp env st).2
  | Op.regLen _ => (getCacheOp env st).2
  | Op.regContains _ _ => (getCacheOp env st).2
  | Op.regGetAll _ => (getCacheOp env st).2
  | Op.regGetMetadata _ _ => (getCacheOp env st).2
  | Op.availableGroupsOp => (getCacheOp env st).2
  | Op.filterOp _ _ _ => (getCacheOp env st).2
  | Op.searchOp _ _ _ _ => (getCacheOp env st).2
  | Op.listDistributionsOp => (getCacheOp env st).2

/-! ### Dictionary lemmas -/

theorem dictGet_insert {α : Type} (l : List (String × α)) (k : String) (v : α)
    (k' : String) :
    dictGet (dictInsert l k v) k' = if k = k' then some v else dictGet l k' := by
  induction l with
  | nil => simp [dictInsert, dictGet]
  | cons hd tl ih =>
    obtain ⟨k₀, v₀⟩ := hd
    by_cases h : k₀ = k <;> by_cases h' : k = k' <;>
      simp_all [dictInsert, dictGet]

theorem dictGet_eq_none_iff {α : Type} (l : List (String × α)) (k : String) :
    dictGet l k = none ↔ k ∉ dictKeys l := by
  induction l with
  | nil => simp [dictGet, dictKeys]
  | cons hd tl ih =>
    obtain ⟨k₀, v₀⟩ := hd
    simp only [dictGet, dictKeys, List.mem_cons]
    by_cases h : k₀ = k
    · subst h; simp
    · rw [if_neg h, ih]
      constructor
      · intro hn hc
        cases hc with
        | inl hc => exact h hc.symm
        | inr hc => exact hn hc
      · intro hn hc
        exact hn (Or.inr hc)

theorem dictGet_mem {α : Type} {l : List (String × α)} {k : String} {v : α}
    (h : dictGet l k = some v) : (k, v) ∈ l := by
  induction l with
  | nil => simp [dictGet] at h
  | cons hd tl ih =>
    obtain ⟨k₀, v₀⟩ := hd
    by_cases h' : k₀ = k <;> simp_all [dictGet]

theorem dictKeys_eq_map {α : Type} (l : List (String × α)) :
    dictKeys l = l.map Prod.fst := by
  induction l with
  | nil => rfl
  | cons hd tl ih => obtain ⟨k, v⟩ := hd; simp [dictKeys, ih]

theorem dictValues_eq_map {α : Type} (l : List (String × α)) :
    dictValues l = l.map Prod.snd := by
  induction l with
  | nil => rfl
  | cons hd tl ih => obtain ⟨k, v⟩ := hd; simp [dictValues, ih]

theorem listHas_iff {α : Type} [DecidableEq α] (l : List α) (x : α) :
    listHas l x = true ↔ x ∈ l := by
  induction l with
  | nil => simp [listHas]
  | cons y tl ih =>
    by_cases h : y = x <;> simp_all [listHas]
    exact fun h' => (h h'.symm).elim

/-- Lookup in a `filterMap` whose function preserves keys, over a
well-formed dictionary: the image of the key's unique binding. -/
theorem dictGet_filterMap {α β : Type} (f : String × α → Option (String × β))
    (hf : ∀ p q, f p = some q → q.1 = p.1) :
    ∀ (l : List (String × α)) (k : String), (dictKeys l).Nodup →
      dictGet (l.filterMap f) k =
        match dictGet l k with
        | none => none
        | some v => (f (k, v)).map Prod.snd := by
  have aux : ∀ (l : List (String × α)) (k : String), k ∉ dictKeys l →
      dictGet (l.filterMap f) k = none := by
    intro l k hk
    induction l with
    | nil => simp [dictGet]
    | cons hd tl ih =>
      obtain ⟨k₀, v₀⟩ := hd
      simp only [dictKeys, List.mem_cons] at hk
      push_neg at hk
      obtain ⟨hk₀, hktl⟩ := hk
      rw [List.filterMap_cons]
      cases hfc : f (k₀, v₀) with
      | none => exact ih hktl
      | some q =>
        have : q.1 = k₀ := hf _ _ hfc
        obtain ⟨q₁, q₂⟩ := q
        simp only at this
        subst this
        simp only [dictGet]
        rw [if_neg (fun h => hk₀ h.symm)]
        exact ih hktl
  intro l k hnd
  induction l with
  | nil => simp [dictGet]
  | cons hd tl ih =>
    obtain ⟨k₀, v₀⟩ := hd
    simp only [dictKeys, List.nodup_cons] at hnd
    obtain ⟨hk₀, hnd'⟩ := hnd
    rw [List.filterMap_cons]
    by_cases h : k₀ = k
    · subst h
      cases hfc : f (k₀, v₀) with
      | none =>
        rw [aux tl k₀ hk₀]
        simp [dictGet, hfc]
      | some q =>
        have hq : q.1 = k₀ := hf _ _ hfc
        obtain ⟨q₁, q₂⟩ := q
        simp only at hq
        subst hq
        simp [dictGet, hfc]
    · cases hfc : f (k₀, v₀) with
      | none =>
        rw [ih hnd']
        simp [dictGet, h]
      | some q =>
        have hq : q.1 = k₀ := hf _ _ hfc
        obtain ⟨q₁, q₂⟩ := q
        simp only at hq
        subst hq
        simp only [dictGet, if_neg h]
        exact ih hnd'

/-- Lookup in a `filter` over a well-formed dictionary. -/
theorem dictGet_filter {α : Type} (P : String × α → Bool) :
    ∀ (l : List (String × α)) (k : String), (dictKeys l).Nodup →
      dictGet (l.filter P) k =
        match dictGet l k with
        | none => none
        | some v => if P (k, v) then some v else none := by
  have key : ∀ (l : List (String × α)),
      l.filter P = l.filterMap fun p => if P p then some p else none := by
    intro l
    induction l with
    | nil => rfl
    | cons hd tl ih =>
      rw [List.filter_cons, List.filterMap_cons]
      by_cases h : P hd <;> simp [h, ih]
  intro l k hnd
  rw [key]
  have hf : ∀ (p q : String × α),
      (if P p then some p else none) = some q → q.1 = p.1 := by
    intro p q h
    by_cases hp : P p <;> simp [hp] at h
    rw [← h]
  have := dictGet_filterMap (fun p => if P p then some p else none) hf l k hnd
  rw [this]
  cases dictGet l k with
  | none => rfl
  | some v => by_cases h : P (k, v) <;> simp [h]

/-! ### Bridging lemmas between the Python truthiness tests and the
claim-level conditions -/

theorem groupPass_iff (o : Option String) (t : String) :
    groupPass o t = true ↔ ∀ p, o = some p → p ≠ "" → matchPattern t p = true := by
  cases o with
  | none => simp [groupPass]
  | some p =>
    by_cases h : p = ""
    · subst h; simp [groupPass]
    · simp [groupPass, h]

theorem namePass_iff (o : Option String) (t : String) :
    namePass o t = true ↔ ∀ p, o = some p → p ≠ "" → matchPattern t p = true := by
  cases o with
  | none => simp [namePass]
  | some p =>
    by_cases h : p = ""
    · subst h; simp [namePass]
    · simp [namePass, h]

theorem distPass_iff (o : Option String) (ep : EntryPoint) :
    distPass o ep = true ↔
      ∀ p, o = some p → p ≠ "" →
        ∃ d, ep.dist = some d ∧ matchPattern d.name p = true := by
  cases o with
  | none => simp [distPass]
  | some p =>
    by_cases h : p = ""
    · subst h; simp [distPass]
    · cases hd : ep.dist with
      | none => simp [distPass, h, hd]
      | some d => simp [distPass, h, hd]

theorem searchCond_iff (q : String) (gF nF dF : Bool) (g n : String)
    (ep : EntryPoint) :
    (epMatches q nF dF n ep || (gF && strContains (strLower g) q)) = true ↔
      ((nF = true ∧ strContains (strLower n) q = true) ∨
       (dF = true ∧ ∃ d, ep.dist = some d ∧
          strContains (strLower d.name) q = true) ∨
       (gF = true ∧ strContains (strLower g) q = true)) := by
  unfold epMatches
  cases hd : ep.dist with
  | none => simp [Bool.or_eq_true, Bool.and_eq_true, or_assoc]
  | some d => simp [Bool.or_eq_true, Bool.and_eq_true, or_assoc]

/-- Lookup through "keep the value if it passes, else drop it". -/
theorem optFilter_eq_some {α : Type} (o : Option α) (P : α → Bool) (x : α) :
    (match o with
      | none => none
      | some v => if P v then some v else none) = some x ↔
      o = some x ∧ P x = true := by
  cases o with
  | none => simp
  | some v =>
    have hred : (match some v with
        | none => none
        | some w => if P w then some w else none) =
        (if P v then some v else none : Option α) := rfl
    rw [hred]
    by_cases hp : P v
    · rw [if_pos hp]
      constructor
      · intro h
        obtain rfl : v = x := Option.some.inj h
        exact ⟨rfl, hp⟩
      · rintro ⟨h, _⟩
        exact h
    · rw [if_neg hp]
      constructor
      · intro h
        exact absurd h (by simp)
      · rintro ⟨h, hpx⟩
        obtain rfl : v = x := Option.some.inj h
        exact absurd hpx hp

/-! ### The initializer's fold -/

theorem dictGet2_cacheStep (c : Cache) (ep : EntryPoint) (g n : String) :
    dictGet2 (cacheStep c ep) g n =
      if ep.group = g ∧ ep.name = n then some ep else dictGet2 c g n := by
  unfold cacheStep dictGet2
  rw [dictGet_insert]
  by_cases hg : ep.group = g
  · rw [if_pos hg]
    show dictGet (dictInsert ((dictGet c ep.group).getD []) ep.name ep) n = _
    rw [dictGet_insert]
    by_cases hn : ep.name = n
    · rw [if_pos hn, if_pos ⟨hg, hn⟩]
    · rw [if_neg hn, if_neg (fun h => hn h.2), hg]
      cases hc : dictGet c g with
      | none => rfl
      | some s => rfl
  · rw [if_neg hg, if_neg (fun h => hg h.1)]

theorem initializeCache_foldl (g n : String) :
    ∀ (env : List EntryPoint) (c : Cache),
      dictGet2 (env.foldl cacheStep c) g n =
        (env.reverse.find? fun e => decide (e.group = g ∧ e.name = n)).or
          (dictGet2 c g n) := by
  intro env
  induction env with
  | nil => simp
  | cons ep rest ih =>
    intro c
    rw [List.foldl_cons, ih, List.reverse_cons, List.find?_append,
      dictGet2_cacheStep]
    by_cases h : ep.group = g ∧ ep.name = n
    · simp [h, Option.or_assoc]
    · simp [h, Option.or_assoc]

/-! ### Pointwise characterizations of filtering and search -/

theorem dictGet_filterEntryPoints (cache : Cache) (gOpt dOpt nOpt : Option String)
    (hwf : CacheWF cache) (g : String) :
    dictGet (filterEntryPoints cache gOpt dOpt nOpt) g =
      match dictGet cache g with
      | none => none
      | some eps =>
          if groupPass gOpt g then
            if (filterGroupSlice dOpt nOpt eps).isEmpty then none
            else some (filterGroupSlice dOpt nOpt eps)
          else none := by
  unfold filterEntryPoints
  have hf : ∀ (p q : String × Slice),
      (if groupPass gOpt p.1 then
         let fe := filterGroupSlice dOpt nOpt p.2
         if fe.isEmpty then none else some (p.1, fe)
       else none) = some q → q.1 = p.1 := by
    intro p q h
    by_cases hg : groupPass gOpt p.1 <;> simp [hg] at h
    rw [← h.2]
  rw [dictGet_filterMap _ hf cache g hwf.1]
  cases dictGet cache g with
  | none => rfl
  | some eps =>
    by_cases hg : groupPass gOpt g
    · by_cases he : (filterGroupSlice dOpt nOpt eps).isEmpty <;> simp [hg, he]
    · simp [hg]

theorem dictGet_searchEntryPoints (cache : Cache) (query : String)
    (gF nF dF : Bool) (hwf : CacheWF cache) (g : String) :
    dictGet (searchEntryPoints cache query gF nF dF) g =
      match dictGet cache g with
      | none => none
      | some eps =>
          if (searchSlice (strLower query) gF nF dF g eps).isEmpty then none
          else some (searchSlice (strLower query) gF nF dF g eps) := by
  unfold searchEntryPoints
  have hf : ∀ (p q : String × Slice),
      (let matching := searchSlice (strLower query) gF nF dF p.1 p.2
       if matching.isEmpty then none else some (p.1, matching)) = some q →
        q.1 = p.1 := by
    intro p q h
    by_cases he : (searchSlice (strLower query) gF nF dF p.1 p.2).isEmpty <;>
      simp [he] at h
    rw [← h]
  rw [dictGet_filterMap _ hf cache g hwf.1]
  cases dictGet cache g with
  | none => rfl
  | some eps =>
    by_cases he : (searchSlice (strLower query) gF nF dF g eps).isEmpty <;>
      simp [he]

theorem dictGet_filterGroupSlice_eq_some (dOpt nOpt : Option String)
    (eps : Slice) (n : String) (v : EntryPoint)
    (hslice : (dictKeys eps).Nodup) :
    dictGet (filterGroupSlice dOpt nOpt eps) n = some v ↔
      dictGet eps n = some v ∧ distPass dOpt v = true ∧
        namePass nOpt n = true := by
  unfold filterGroupSlice
  rw [dictGet_filter _ eps n hslice]
  cases hd : dictGet eps n with
  | none => simp
  | some w =>
    show (if (distPass dOpt w && namePass nOpt n) = true then some w
        else none) = some v ↔ _
    by_cases hp : distPass dOpt w && namePass nOpt n
    · rw [if_pos hp]
      constructor
      · intro h
        obtain rfl : w = v := Option.some.inj h
        obtain ⟨h1, h2⟩ := Bool.and_eq_true_iff.mp hp
        exact ⟨rfl, h1, h2⟩
      · rintro ⟨hw, _, _⟩
        exact hw
    · rw [if_neg hp]
      constructor
      · intro h
        exact absurd h (by simp)
      · rintro ⟨hw, hdp, hnp⟩
        obtain rfl : w = v := Option.some.inj hw
        exact absurd (Bool.and_eq_true_iff.mpr ⟨hdp, hnp⟩) hp

theorem dictGet_searchSlice_eq_some (q : String) (gF nF dF : Bool)
    (gName : String) (eps : Slice) (n : String) (v : EntryPoint)
    (hslice : (dictKeys eps).Nodup) :
    dictGet (searchSlice q gF nF dF gName eps) n = some v ↔
      dictGet eps n = some v ∧
        (epMatches q nF dF n v ||
          (gF && strContains (strLower gName) q)) = true := by
  unfold searchSlice
  rw [dictGet_filter _ eps n hslice]
  cases hd : dictGet eps n with
  | none => simp
  | some w =>
    show (if (epMatches q nF dF n w ||
          (gF && strContains (strLower gName) q)) = true then some w
        else none) = some v ↔ _
    by_cases hp : epMatches q nF dF n w || (gF && strContains (strLower gName) q)
    · rw [if_pos hp]
      constructor
      · intro h
        obtain rfl : w = v := Option.some.inj h
        exact ⟨rfl, hp⟩
      · rintro ⟨hw, _⟩
        exact hw
    · rw [if_neg hp]
      constructor
      · intro h
        exact absurd h (by simp)
      · rintro ⟨hw, hm⟩
        obtain rfl : w = v := Option.some.inj hw
        exact absurd hm hp

theorem dictGet2_filterEntryPoints_eq_some (cache : Cache)
    (gOpt dOpt nOpt : Option String) (hwf : CacheWF cache)
    (g n : String) (ep : EntryPoint) :
    dictGet2 (filterEntryPoints cache gOpt dOpt nOpt) g n = some ep ↔
      dictGet2 cache g n = some ep ∧ groupPass gOpt g = true ∧
        distPass dOpt ep = true ∧ namePass nOpt n = true := by
  unfold dictGet2
  rw [dictGet_filterEntryPoints cache gOpt dOpt nOpt hwf g]
  cases hc : dictGet cache g with
  | none => simp
  | some eps =>
    have hslice : (dictKeys eps).Nodup := hwf.2 (g, eps) (dictGet_mem hc)
    show (match (if groupPass gOpt g then
            if (filterGroupSlice dOpt nOpt eps).isEmpty then none
            else some (filterGroupSlice dOpt nOpt eps)
          else none : Option Slice) with
        | none => none
        | some s => dictGet s n) = some ep ↔
      dictGet eps n = some ep ∧ groupPass gOpt g = true ∧
        distPass dOpt ep = true ∧ namePass nOpt n = true
    by_cases hg : groupPass gOpt g
    · rw [if_pos hg]
      by_cases he : (filterGroupSlice dOpt nOpt eps).isEmpty
      · rw [if_pos he]
        have hnil : filterGroupSlice dOpt nOpt eps = [] :=
          List.isEmpty_iff.mp he
        show (none : Option EntryPoint) = some ep ↔ _
        constructor
        · intro h
          exact absurd h (by simp)
        · rintro ⟨hd, _, hdp, hnp⟩
          exfalso
          have hin : dictGet (filterGroupSlice dOpt nOpt eps) n = some ep :=
            (dictGet_filterGroupSlice_eq_some dOpt nOpt eps n ep hslice).mpr
              ⟨hd, hdp, hnp⟩
          rw [hnil] at hin
          simp [dictGet] at hin
      · rw [if_neg he]
        show dictGet (filterGroupSlice dOpt nOpt eps) n = some ep ↔ _
        rw [dictGet_filterGroupSlice_eq_some dOpt nOpt eps n ep hslice]
        simp [hg]
    · rw [if_neg hg]
      show (none : Option EntryPoint) = some ep ↔ _
      simp [hg]

theorem dictGet2_searchEntryPoints_eq_some (cache : Cache) (query : String)
    (gF nF dF : Bool) (hwf : CacheWF cache) (g n : String) (ep : EntryPoint) :
    dictGet2 (searchEntryPoints cache query gF nF dF) g n = some ep ↔
      dictGet2 cache g n = some ep ∧
        (epMatches (strLower query) nF dF n ep ||
          (gF && strContains (strLower g) (strLower query))) = true := by
  unfold dictGet2
  rw [dictGet_searchEntryPoints cache query gF nF dF hwf g]
  cases hc : dictGet cache g with
  | none => simp
  | some eps =>
    have hslice : (dictKeys eps).Nodup := hwf.2 (g, eps) (dictGet_mem hc)
    show (match (if (searchSlice (strLower query) gF nF dF g eps).isEmpty then
            none
          else some (searchSlice (strLower query) gF nF dF g eps) :
            Option Slice) with
        | none => none
        | some s => dictGet s n) = some ep ↔
      dictGet eps n = some ep ∧
        (epMatches (strLower query) nF dF n ep ||
          (gF && strContains (strLower g) (strLower query))) = true
    by_cases he : (searchSlice (strLower query) gF nF dF g eps).isEmpty
    · rw [if_pos he]
      have hnil : searchSlice (strLower query) gF nF dF g eps = [] :=
        List.isEmpty_iff.mp he
      show (none : Option EntryPoint) = some ep ↔ _
      constructor
      · intro h
        exact absurd h (by simp)
      · rintro ⟨hd, hm⟩
        exfalso
        have hin : dictGet (searchSlice (strLower query) gF nF dF g eps) n =
            some ep :=
          (dictGet_searchSlice_eq_some (strLower query) gF nF dF g eps n ep
            hslice).mpr ⟨hd, hm⟩
        rw [hnil] at hin
        simp [dictGet] at hin
    · rw [if_neg he]
      show dictGet (searchSlice (strLower query) gF nF dF g eps) n = some ep ↔ _
      rw [dictGet_searchSlice_eq_some (strLower query) gF nF dF g eps n ep
        hslice]

/-! ### Concrete values for witness instantiations -/

def epAlpha : EntryPoint :=
  ⟨"a", "plugins", "pkga.mod", "main", some ⟨"pkgA", "1.0"⟩⟩

def epBeta : EntryPoint :=
  ⟨"b", "plugins", "pkgb.mod", "run", some ⟨"pkgB", "2.0"⟩⟩

def epGamma : EntryPoint :=
  ⟨"c", "plugins", "pkgc", "f", none⟩

def epTool : EntryPoint :=
  ⟨"t", "tools", "pkgt.mod", "go", some ⟨"pkgT", "0.1"⟩⟩

def epX : EntryPoint :=
  ⟨"a", "x", "xmod", "f", none⟩

def demoSlice : Slice :=
  [("a", epAlpha), ("b", epBeta), ("c", epGamma)]

def demoCache : Cache :=
  [("plugins", [("a", epAlpha), ("b", epBeta)]), ("tools", [("t", epTool)])]

/-! ### The claims -/

/-- C6: the cache initializer is idempotent — after any first invocation,
a second invocation returns a mapping structurally identical to the first,
leaves the memo cell unchanged, and re-enumerates the environment zero
times. -/
theorem initializer_idempotent (env : List EntryPoint) (m : Option Cache) :
    (runInit env (runInit env m).memo).value = (runInit env m).value ∧
    (runInit env (runInit env m).memo).memo = (runInit env m).memo ∧
    (runInit env (runInit env m).memo).scans = 0 := by
  cases m <;> simp [runInit]

/-- C7: for every enumeration sequence, the entry the initializer caches
under a (group, name) pair is exactly the last entry point of the
sequence with that group and name (last-write-wins on duplicates), and
nothing is cached for pairs the sequence never mentions. -/
theorem cache_last_write_wins (env : List EntryPoint) (g n : String) :
    dictGet2 (initializeCache env) g n =
      env.reverse.find? fun e => decide (e.group = g ∧ e.name = n) := by
  unfold initializeCache
  rw [initializeCache_foldl]
  cases h : env.reverse.find? fun e => decide (e.group = g ∧ e.name = n) <;>
    simp [dictGet2, dictGet]

/-- C1 counterexample: with the global cache already initialized (here to
the empty mapping of an environment exposing no entry points),
constructing a registry for a group that is not yet a cache key mutates
the global cache in place — its set of group keys changes. -/
theorem registry_construction_mutates_cache :
    runOp [] (Op.regInit "g") (some []) = some [("g", [])] ∧
    runOp [] (Op.regInit "g") (some []) ≠ some [] := by
  decide

/-- C1 (amended): after initialization, every listed public operation
except registry construction leaves the global cache unchanged; registry
construction leaves it unchanged when its group is already a key, and
otherwise only appends that group bound to an empty slice, leaving every
other group's mapping unchanged. -/
theorem public_ops_cache_effect (env : List EntryPoint) (op : Op) (c : Cache) :
    ((∀ g, op ≠ Op.regInit g) → runOp env op (some c) = some c) ∧
    ∀ g, runOp env (Op.regInit g) (some c) =
          (if (dictGet c g).isSome then some c
           else some (dictInsert c g [])) ∧
        dictGet (dictInsert c g []) g = some [] ∧
        ∀ g', g' ≠ g → dictGet (dictInsert c g []) g' = dictGet c g' := by
  constructor
  · intro h
    cases op with
    | regInit g => exact absurd rfl (h g)
    | regGet g n => rfl
    | regGetItem g n => rfl
    | regLoad g n => rfl
    | regNames g => rfl
    | regIter g => rfl
    | regLen g => rfl
    | regContains g x => rfl
    | regGetAll g => rfl
    | regGetMetadata g n => rfl
    | availableGroupsOp => rfl
    | filterOp x y z => rfl
    | searchOp q x y z => rfl
    | listDistributionsOp => rfl
  · intro g
    refine ⟨rfl, ?_, ?_⟩
    · rw [dictGet_insert]
      simp
    · intro g' hg'
      rw [dictGet_insert, if_neg (fun h => hg' h.symm)]

/-- C1 witness: a read operation on an initialized cache leaves it
unchanged; constructing a registry for the absent group "g" on the
initialized empty cache appends that group with an empty slice. -/
theorem public_ops_cache_effect_witness :
    runOp [] (Op.regLen "plugins") (some demoCache) = some demoCache ∧
    runOp [] (Op.regInit "g") (some []) = some (dictInsert [] "g" []) := by
  have h1 := (public_ops_cache_effect [] (Op.regLen "plugins") demoCache).1
    (fun g hg => Op.noConfusion hg)
  have h2 := ((public_ops_cache_effect [] (Op.regInit "g") []).2 "g").1
  exact ⟨h1, h2.trans (by decide)⟩

/-- C2: for a name absent from the registry's slice, `get` returns the
absent-marker, `load` returns the absent-marker, and `__getitem__` fails
with a `KeyError` carrying the missing name and the group; for a present
name, `get` and `__getitem__` return the stored entry point and `load`
returns the result of that entry point's own load operation. -/
theorem get_load_getitem_spec {α : Type} (loader : EntryPoint → α)
    (slice : Slice) (group n : String) :
    (EntryPointRegistry.get slice n = none →
        EntryPointRegistry.load loader slice n = none ∧
        EntryPointRegistry.getItem slice group n =
          Except.error (PyError.keyError n group)) ∧
    ∀ ep, EntryPointRegistry.get slice n = some ep →
        EntryPointRegistry.getItem slice group n = Except.ok ep ∧
        EntryPointRegistry.load loader slice n = some (loader ep) := by
  constructor
  · intro h
    have h' : dictGet slice n = none := h
    exact ⟨by simp [EntryPointRegistry.load, EntryPointRegistry.get, h'],
      by simp [EntryPointRegistry.getItem, h']⟩
  · intro ep h
    have h' : dictGet slice n = some ep := h
    exact ⟨by simp [EntryPointRegistry.getItem, h'],
      by simp [EntryPointRegistry.load, EntryPointRegistry.get, h']⟩

/-- C2 witness: on a concrete slice, the absent name "zzz" yields the
absent-marker from `get`/`load` and a `KeyError` from `__getitem__`,
while the present name "b" yields the stored entry point and its loaded
value. -/
theorem get_load_getitem_witness :
    EntryPointRegistry.get demoSlice "zzz" = none ∧
    EntryPointRegistry.load EntryPoint.module demoSlice "zzz" = none ∧
    EntryPointRegistry.getItem demoSlice "plugins" "zzz" =
      Except.error (PyError.keyError "zzz" "plugins") ∧
    EntryPointRegistry.getItem demoSlice "plugins" "b" = Except.ok epBeta ∧
    EntryPointRegistry.load EntryPoint.module demoSlice "b" =
      some (EntryPoint.module epBeta) := by
  have h1 := (get_load_getitem_spec EntryPoint.module demoSlice "plugins"
    "zzz").1 (by decide)
  have h2 := (get_load_getitem_spec EntryPoint.module demoSlice "plugins"
    "b").2 epBeta (by decide)
  exact ⟨by decide, h1.1, h1.2, h2.1, h2.2⟩

/-- C3 counterexample: for an absent name, `get_metadata` raises
`ValueError` while registry indexing raises `KeyError` — two distinct
error classes, so the failure is not of the same lookup-error kind as
indexing. -/
theorem get_metadata_error_class_differs :
    EntryPointRegistry.get_metadata [] "plugins" "missing" =
      Except.error (PyError.valueError "missing" "plugins") ∧
    EntryPointRegistry.getItem [] "plugins" "missing" =
      Except.error (PyError.keyError "missing" "plugins") ∧
    PyError.valueError "missing" "plugins" ≠
      PyError.keyError "missing" "plugins" := by
  decide

/-- C3 (amended): for an absent name, `get_metadata` fails with a
not-found error carrying the missing name and the group — but as a
`ValueError`, a different exception class than the `KeyError` raised by
registry indexing; for a present name it returns the record with the
entry point's module, attribute, owning distribution name and
distribution version, the latter two absent when the entry point has no
owning distribution. -/
theorem get_metadata_spec (slice : Slice) (group n : String) :
    (EntryPointRegistry.get slice n = none →
        EntryPointRegistry.get_metadata slice group n =
          Except.error (PyError.valueError n group) ∧
        EntryPointRegistry.getItem slice group n =
          Except.error (PyError.keyError n group)) ∧
    ∀ ep, EntryPointRegistry.get slice n = some ep →
        EntryPointRegistry.get_metadata slice group n =
          Except.ok ⟨ep.module, ep.attr, Option.map Distribution.name ep.dist,
            Option.map Distribution.version ep.dist⟩ := by
  constructor
  · intro h
    have h' : dictGet slice n = none := h
    exact ⟨by simp [EntryPointRegistry.get_metadata, EntryPointRegistry.get, h'],
      by simp [EntryPointRegistry.getItem, h']⟩
  · intro ep h
    have h' : dictGet slice n = some ep := h
    simp [EntryPointRegistry.get_metadata, EntryPointRegistry.get, h']

/-- C3 witness: on a concrete slice, the absent name "zzz" gives the
`ValueError`; the present name "a" (with a distribution) gives the full
record and the present name "c" (without one) gives absent distribution
and version fields. -/
theorem get_metadata_witness :
    EntryPointRegistry.get_metadata demoSlice "plugins" "zzz" =
      Except.error (PyError.valueError "zzz" "plugins") ∧
    EntryPointRegistry.get_metadata demoSlice "plugins" "a" =
      Except.ok ⟨"pkga.mod", "main", some "pkgA", some "1.0"⟩ ∧
    EntryPointRegistry.get_metadata demoSlice "plugins" "c" =
      Except.ok ⟨"pkgc", "f", none, none⟩ := by
  have h1 := (get_metadata_spec demoSlice "plugins" "zzz").1 (by decide)
  have h2 := (get_metadata_spec demoSlice "plugins" "a").2 epAlpha (by decide)
  have h3 := (get_metadata_spec demoSlice "plugins" "c").2 epGamma (by decide)
  exact ⟨h1.1, h2.trans (by decide), h3.trans (by decide)⟩

/-- C8: the membership test is polymorphic — a string argument is a
member exactly when it is one of the slice's keys, and an `EntryPoint`
argument is a member exactly when it equals one of the stored entry-point
values, regardless of the key it is stored under. -/
theorem contains_polymorphic_spec (slice : Slice) :
    (∀ s, EntryPointRegistry.contains slice (ContainsArg.name s) = true ↔
        s ∈ dictKeys slice) ∧
    ∀ e, EntryPointRegistry.contains slice (ContainsArg.entry e) = true ↔
        e ∈ dictValues slice := by
  constructor
  · intro s
    exact listHas_iff (dictKeys slice) s
  · intro e
    exact listHas_iff (dictValues slice) e

/-- C8 witness: on a concrete slice, the key "a" is a member as a string,
and `epBeta` is a member as a value. -/
theorem contains_polymorphic_witness :
    EntryPointRegistry.contains demoSlice (ContainsArg.name "a") = true ∧
    EntryPointRegistry.contains demoSlice (ContainsArg.entry epBeta) = true := by
  have h := contains_polymorphic_spec demoSlice
  exact ⟨(h.1 "a").mpr (by decide), (h.2 epBeta).mpr (by decide)⟩

/-- C9: `get_extension_point_dir` fails assertion-style (never with a
recoverable `PyError`) when the name is absent from the slice or when the
loaded object exposes no filesystem origin, and otherwise returns the
resolved parent directory of the loaded object's `__file__` path. -/
theorem get_extension_point_dir_spec {α : Type} (loader : EntryPoint → α)
    (file? : α → Option String) (resolveParent : String → String)
    (slice : Slice) (n : String) :
    (EntryPointRegistry.get slice n = none →
        EntryPointRegistry.get_extension_point_dir loader file? resolveParent
          slice n = DirResult.assertFailed "ep") ∧
    (∀ ep, EntryPointRegistry.get slice n = some ep →
        file? (loader ep) = none →
        EntryPointRegistry.get_extension_point_dir loader file? resolveParent
          slice n = DirResult.assertFailed "hasattr(ep, __file__)") ∧
    ∀ ep f, EntryPointRegistry.get slice n = some ep →
        file? (loader ep) = some f →
        EntryPointRegistry.get_extension_point_dir loader file? resolveParent
          slice n = DirResult.dir (resolveParent f) := by
  refine ⟨?_, ?_, ?_⟩
  · intro h
    simp [EntryPointRegistry.get_extension_point_dir,
      EntryPointRegistry.load, h]
  · intro ep h hf
    simp [EntryPointRegistry.get_extension_point_dir,
      EntryPointRegistry.load, h, hf]
  · intro ep f h hf
    simp [EntryPointRegistry.get_extension_point_dir,
      EntryPointRegistry.load, h, hf]

/-- C9 witness: with a concrete loader (the entry point's module string),
origin reader and path resolver, the present name "a" yields its resolved
directory while the absent name "zzz" fails the presence assertion. -/
theorem get_extension_point_dir_witness :
    EntryPointRegistry.get_extension_point_dir EntryPoint.module
      (fun m => some m) (fun s => s) demoSlice "a" =
      DirResult.dir "pkga.mod" ∧
    EntryPointRegistry.get_extension_point_dir EntryPoint.module
      (fun m => some m) (fun s => s) demoSlice "zzz" =
      DirResult.assertFailed "ep" := by
  have h1 := (get_extension_point_dir_spec EntryPoint.module
    (fun m => some m) (fun s => s) demoSlice "a").2.2 epAlpha "pkga.mod"
    (by decide) rfl
  have h2 := (get_extension_point_dir_spec EntryPoint.module
    (fun m => some m) (fun s => s) demoSlice "zzz").1 (by decide)
  exact ⟨h1, h2⟩

/-- C10: iteration over a registry yields the stored `EntryPoint` values
(not the name strings) in the slice's insertion order, and the read views
agree in size: `__len__` equals the length of `names()` and the number of
pairs of `get_all()`. -/
theorem iteration_and_sizes_spec (slice : Slice) :
    EntryPointRegistry.iterate slice =
      (EntryPointRegistry.get_all slice).map Prod.snd ∧
    EntryPointRegistry.size slice =
      (EntryPointRegistry.names slice).length ∧
    EntryPointRegistry.size slice =
      (EntryPointRegistry.get_all slice).length := by
  refine ⟨dictValues_eq_map slice, ?_, rfl⟩
  show slice.length = (dictKeys slice).length
  rw [dictKeys_eq_map, List.length_map]

/-- Every slice in a `filter_entry_points` result is nonempty. -/
theorem filterEntryPoints_no_empty_group (cache : Cache)
    (gOpt dOpt nOpt : Option String) (g : String) (s : Slice)
    (hs : dictGet (filterEntryPoints cache gOpt dOpt nOpt) g = some s) :
    s ≠ [] := by
  intro hnil
  have hmem := dictGet_mem hs
  unfold filterEntryPoints at hmem
  rw [List.mem_filterMap] at hmem
  obtain ⟨p, hp, hfp⟩ := hmem
  by_cases hg : groupPass gOpt p.1 <;> simp [hg] at hfp
  obtain ⟨hne, -, hfe⟩ := hfp
  exact hne (hfe.trans hnil)

/-- Every slice in a `search_entry_points` result is nonempty. -/
theorem searchEntryPoints_no_empty_group (cache : Cache) (query : String)
    (gF nF dF : Bool) (g : String) (s : Slice)
    (hs : dictGet (searchEntryPoints cache query gF nF dF) g = some s) :
    s ≠ [] := by
  intro hnil
  have hmem := dictGet_mem hs
  unfold searchEntryPoints at hmem
  rw [List.mem_filterMap] at hmem
  obtain ⟨p, hp, hfp⟩ := hmem
  by_cases he : (searchSlice (strLower query) gF nF dF p.1 p.2).isEmpty <;>
    simp [he] at hfp
  obtain ⟨-, hfe⟩ := hfp
  rw [← hfe] at hnil
  exact he (by rw [hnil]; rfl)

/-- C4 counterexample: a given empty-string group filter is falsy in
Python, so the filter is skipped and a group whose name does not match
the glob "" still appears in the result — the result is not restricted
to groups matching the given pattern. -/
theorem filter_empty_pattern_passes_all :
    filterEntryPoints [("x", [("a", epX)])] (some "") none none =
      [("x", [("a", epX)])] ∧
    matchPattern "x" "" = false := by
  decide

/-- C4 (amended): `filter_entry_points` keeps exactly the cache entries
that pass all the given filters — the group name, the owning distribution
name (an entry with no distribution failing any given distribution
filter) and the entry-point name each matching their filter as a
case-insensitive glob — where an omitted filter, or one given as the
empty string (falsy in Python), passes every entry; and no group key of
the result maps to an empty slice. -/
theorem filter_entry_points_spec (cache : Cache)
    (gOpt dOpt nOpt : Option String) (hwf : CacheWF cache) :
    (∀ g n ep,
        dictGet2 (filterEntryPoints cache gOpt dOpt nOpt) g n = some ep ↔
          dictGet2 cache g n = some ep ∧
            (∀ p, gOpt = some p → p ≠ "" → matchPattern g p = true) ∧
            (∀ p, dOpt = some p → p ≠ "" →
              ∃ d, ep.dist = some d ∧ matchPattern d.name p = true) ∧
            (∀ p, nOpt = some p → p ≠ "" → matchPattern n p = true)) ∧
    ∀ g s, dictGet (filterEntryPoints cache gOpt dOpt nOpt) g = some s →
      s ≠ [] := by
  constructor
  · intro g n ep
    rw [dictGet2_filterEntryPoints_eq_some cache gOpt dOpt nOpt hwf g n ep,
      groupPass_iff, distPass_iff, namePass_iff]
  · exact fun g s => filterEntryPoints_no_empty_group cache gOpt dOpt nOpt g s

/-- C4 witness: filtering a concrete well-formed cache by the name
pattern "a" keeps exactly the entry named "a", whose name matches the
glob. -/
theorem filter_entry_points_witness :
    CacheWF demoCache ∧
    dictGet2 demoCache "plugins" "a" = some epAlpha ∧
    ∀ p, (some "a" : Option String) = some p → p ≠ "" →
      matchPattern "a" p = true := by
  have h := ((filter_entry_points_spec demoCache none none (some "a")
    (by decide)).1 "plugins" "a" epAlpha).mp (by decide)
  exact ⟨by decide, h.1, h.2.2.2⟩

/-- C5: `search_entry_points` includes an entry point exactly when the
names are searched and the query is a case-insensitive substring of the
entry-point name, or the distributions are searched and the query is a
case-insensitive substring of the owning distribution's name, or the
groups are searched and the query is a case-insensitive substring of the
group name (in which case the whole group is included); groups with no
matching entries do not appear. -/
theorem search_entry_points_spec (cache : Cache) (query : String)
    (gF nF dF : Bool) (hwf : CacheWF cache) :
    (∀ g n ep,
        dictGet2 (searchEntryPoints cache query gF nF dF) g n = some ep ↔
          dictGet2 cache g n = some ep ∧
            ((nF = true ∧
                strContains (strLower n) (strLower query) = true) ∨
             (dF = true ∧ ∃ d, ep.dist = some d ∧
                strContains (strLower d.name) (strLower query) = true) ∨
             (gF = true ∧
                strContains (strLower g) (strLower query) = true))) ∧
    ∀ g s, dictGet (searchEntryPoints cache query gF nF dF) g = some s →
      s ≠ [] := by
  constructor
  · intro g n ep
    rw [dictGet2_searchEntryPoints_eq_some cache query gF nF dF hwf g n ep,
      searchCond_iff]
  · exact fun g s => searchEntryPoints_no_empty_group cache query gF nF dF g s

/-- C5 witness: searching a concrete well-formed cache for "PKGB" with
only name and distribution search enabled includes the entry whose
distribution name contains the query case-insensitively. -/
theorem search_entry_points_witness :
    CacheWF demoCache ∧
    dictGet2 (searchEntryPoints demoCache "PKGB" false true true)
      "plugins" "b" = some epBeta := by
  refine ⟨by decide, ?_⟩
  exact ((search_entry_points_spec demoCache "PKGB" false true true
    (by decide)).1 "plugins" "b" epBeta).mpr
    ⟨by decide, Or.inr (Or.inl ⟨rfl, ⟨"pkgB", "2.0"⟩, by decide, by decide⟩)⟩
